import Mathlib

/-!
Shallow embedding of `src/scripts/lib/hdf5_adapter.py` (SO101-Pilot), the
episode-extraction and validation layer of the pipeline, together with the
downstream file-name formatter of `src/scripts/02_export_mp4_from_hdf5.py`.

Modelling conventions:
* numpy scalar values are modelled by `PyNum`: a finite rational, NaN, +inf
  or -inf, with IEEE-754 comparison and subtraction semantics (numpy follows
  IEEE-754 for float arrays);
* an n-dimensional numpy array is a `shape` list plus a flattened `data`
  list; Python `len()` of an array is `shape[0]` and raises `TypeError` on a
  zero-dimensional array, which the model renders as `Option`/`Except`;
* the per-step metadata arrays `meta/frame_index` and `meta/timestamps` are
  modelled as one-dimensional value lists, per the schema of the spec;
* Python `bytes` are lists of byte values; `bytes.decode("utf-8")` is
  modelled by an explicit strict UTF-8 decoder (`utf8DecodeList`), which
  like CPython rejects truncated sequences, overlong forms, surrogates and
  out-of-range code points;
* Python exceptions are `Except PyError`; string keys are Lean `String`s and
  `str.isdigit` is modelled for ASCII text (decimal digits 0-9);
* `hash` is CPython's run-seeded string hash: an arbitrary function
  `String → Int`, over which every statement is universally quantified.
-/

/-- IEEE-754-style scalar value as held in a numpy float array: a finite
rational, NaN, or a signed infinity. -/
inductive PyNum where
  | fin (q : Rat)
  | nan
  | pinf
  | ninf
deriving DecidableEq, Repr

namespace PyNum

/-- `np.isfinite` on one element. -/
def isFinite : PyNum → Bool
  | .fin _ => true
  | _ => false

/-- IEEE comparison `a <= b`: any comparison involving NaN is false. -/
def le : PyNum → PyNum → Bool
  | .nan, _ => false
  | _, .nan => false
  | .ninf, _ => true
  | _, .pinf => true
  | .pinf, _ => false
  | _, .ninf => false
  | .fin a, .fin b => a ≤ b

/-- IEEE comparison `a < b`: any comparison involving NaN is false. -/
def lt : PyNum → PyNum → Bool
  | .nan, _ => false
  | _, .nan => false
  | .pinf, _ => false
  | _, .pinf => true
  | .ninf, .ninf => false
  | .ninf, _ => true
  | _, .ninf => false
  | .fin a, .fin b => a < b

/-- IEEE subtraction `a - b`: NaN propagates, and `inf - inf` (same sign)
is NaN. -/
def sub : PyNum → PyNum → PyNum
  | .nan, _ => .nan
  | _, .nan => .nan
  | .pinf, .pinf => .nan
  | .pinf, _ => .pinf
  | .ninf, .ninf => .nan
  | .ninf, _ => .ninf
  | .fin _, .pinf => .ninf
  | .fin _, .ninf => .pinf
  | .fin a, .fin b => .fin (a - b)

end PyNum

/-- A numpy ndarray: its shape and its flattened element list. (The model
does not constrain `data.length` to the shape product; no modelled operation
depends on that relation.) -/
structure NpArray where
  shape : List Nat
  data : List PyNum
deriving DecidableEq, Repr

namespace NpArray

/-- Python `len(a)` for an ndarray: `shape[0]`; on a zero-dimensional array
it raises `TypeError` (`len() of unsized object`), modelled as `none`. -/
def lenOrErr (a : NpArray) : Option Nat :=
  a.shape.head?

/-- `np.isfinite(a).all()`. -/
def isfiniteAll (a : NpArray) : Bool :=
  a.data.all PyNum.isFinite

/-- `a.ndim`. -/
def ndim (a : NpArray) : Nat :=
  a.shape.length

end NpArray

/-- `np.diff` of a one-dimensional value list: consecutive differences
`x[i+1] - x[i]`. -/
def npDiff (xs : List PyNum) : List PyNum :=
  (xs.zip xs.tail).map fun p => p.2.sub p.1

/-- `np.all(np.diff(xs) >= 0)` — elementwise IEEE comparison with 0, then
conjunction (true for the empty diff list). -/
def npAllDiffGe0 (xs : List PyNum) : Bool :=
  (npDiff xs).all fun d => PyNum.le (.fin 0) d

/-- Whether some consecutive pair of the list strictly decreases under IEEE
ordering (`x[i+1] < x[i]` for some i). -/
def strictDecSomewhere (xs : List PyNum) : Bool :=
  (xs.zip xs.tail).any fun p => PyNum.lt p.2 p.1

/-- A UTF-8 continuation byte: `0x80 <= b < 0xC0`. -/
def isContByte (b : Nat) : Bool :=
  0x80 ≤ b && b < 0xC0

/-- One step of strict UTF-8 decoding as performed by Python
`bytes.decode("utf-8")`: read one code point from the front of the byte
list, rejecting stray continuation bytes, truncated sequences, overlong
encodings, surrogates and code points above U+10FFFF. -/
def decodeOne : List Nat → Option (Nat × List Nat)
  | [] => none
  | b :: rest =>
    if b < 0x80 then some (b, rest)
    else if b < 0xE0 then
      match rest with
      | b1 :: rest1 =>
        if 0xC2 ≤ b && isContByte b1 then some ((b - 0xC0) * 0x40 + (b1 - 0x80), rest1)
        else none
      | [] => none
    else if b < 0xF0 then
      match rest with
      | b1 :: b2 :: rest2 =>
        let v := (b - 0xE0) * 0x1000 + (b1 - 0x80) * 0x40 + (b2 - 0x80)
        if isContByte b1 && isContByte b2 && (0x800 ≤ v && (v < 0xD800 || 0xE000 ≤ v)) then
          some (v, rest2)
        else none
      | _ => none
    else if b < 0xF5 then
      match rest with
      | b1 :: b2 :: b3 :: rest3 =>
        let v := (b - 0xF0) * 0x40000 + (b1 - 0x80) * 0x1000 + (b2 - 0x80) * 0x40 + (b3 - 0x80)
        if isContByte b1 && isContByte b2 && isContByte b3 && (0x10000 ≤ v && v < 0x110000) then
          some (v, rest3)
        else none
      | _ => none
    else none

set_option maxRecDepth 4000 in
theorem decodeOne_length : ∀ {bs : List Nat} {v : Nat} {rest : List Nat},
    decodeOne bs = some (v, rest) → rest.length < bs.length := by
  intro bs v rest h
  match bs with
  | [] => exact Option.noConfusion h
  | b :: r =>
    unfold decodeOne at h
    dsimp only at h
    split_ifs at h
    · cases h; simp
    · match r with
      | [] => exact Option.noConfusion h
      | b1 :: r1 =>
        dsimp only at h
        split_ifs at h
        cases h
        simp
        omega
    · match r with
      | [] => exact Option.noConfusion h
      | [b1] => exact Option.noConfusion h
      | b1 :: b2 :: r2 =>
        dsimp only at h
        split_ifs at h
        cases h
        simp
        omega
    · match r with
      | [] => exact Option.noConfusion h
      | [b1] => exact Option.noConfusion h
      | [b1, b2] => exact Option.noConfusion h
      | b1 :: b2 :: b3 :: r3 =>
        dsimp only at h
        split_ifs at h
        cases h
        simp
        omega

/-- Strict UTF-8 decoding of a whole byte list to a code-point list:
repeatedly read one code point; any malformed step fails the decode. -/
def utf8DecodeList (bs : List Nat) : Option (List Nat) :=
  match _hbs : bs with
  | [] => some []
  | _ :: _ =>
    match hd : decodeOne bs with
    | some vr =>
      have : vr.2.length < bs.length := decodeOne_length hd
      (utf8DecodeList vr.2).map (vr.1 :: ·)
    | none => none
termination_by bs.length

/-- UTF-8 encoding of one Unicode code point (reference encoding used to
state round-trip facts about the decoder). -/
def utf8EncodeCp (v : Nat) : List Nat :=
  if v < 0x80 then [v]
  else if v < 0x800 then [0xC0 + v / 0x40, 0x80 + v % 0x40]
  else if v < 0x10000 then
    [0xE0 + v / 0x1000, 0x80 + v / 0x40 % 0x40, 0x80 + v % 0x40]
  else
    [0xF0 + v / 0x40000, 0x80 + v / 0x1000 % 0x40, 0x80 + v / 0x40 % 0x40, 0x80 + v % 0x40]

/-- UTF-8 encoding of a string, code point by code point. -/
def utf8EncodeStr (s : String) : List Nat :=
  s.data.flatMap fun c => utf8EncodeCp c.toNat

/-- Python `bytes.decode("utf-8")`: decode to code points, then rebuild the
text. -/
def pyBytesDecodeUtf8 (bs : List Nat) : Option String :=
  (utf8DecodeList bs).map fun vs => String.mk (vs.map Char.ofNat)

/-- A scalar string payload as handed back by the hierarchical store: raw
Python bytes (this includes numpy fixed-size character scalars such as
`np.bytes_`, which subclass `bytes`), a plain Python `str`, or a
zero-dimensional ndarray whose `raw[()]` unwraps to an inner payload. -/
inductive H5Scalar where
  | pyBytes (data : List Nat)
  | pyStr (s : String)
  | arr0 (inner : H5Scalar)
deriving DecidableEq, Repr

/-- `decode_scalar_string(raw)` (hdf5_adapter.py lines 32-39): bytes are
UTF-8 decoded; a zero-dimensional ndarray is unwrapped via `raw[()]` and
decoded recursively; anything else falls through to `str(raw)`, which for a
Python `str` returns the value itself. An undecodable byte payload raises
`UnicodeDecodeError`, modelled as `none`. -/
def decode_scalar_string : H5Scalar → Option String
  | .pyBytes data => pyBytesDecodeUtf8 data
  | .arr0 inner => decode_scalar_string inner
  | .pyStr s => some s

/-- A POSIX `pathlib` pure path: whether it is absolute, plus its non-empty,
non-dot components. (`pathlib` drops empty and `.` segments; the rare
two-leading-slash root is not distinguished from `/`.) -/
structure PyPath where
  absolute : Bool
  parts : List String
deriving DecidableEq, Repr

/-- Split a character list at every `/`. -/
def splitOnSlash (l : List Char) : List (List Char) :=
  match l with
  | [] => [[]]
  | c :: rest =>
    match splitOnSlash rest with
    | [] => [[]]
    | p :: ps => if c = '/' then [] :: p :: ps else (c :: p) :: ps

/-- `pathlib.PurePosixPath(s)`: absolute iff the text begins with `/`;
components are the non-empty, non-dot slash-separated segments. -/
def parsePosix (s : String) : PyPath :=
  { absolute := s.data.head? = some '/'
    parts := ((splitOnSlash s.data).filter fun p => p ≠ [] ∧ p ≠ ['.']).map String.mk }

/-- `pathlib`'s `/` operator with a string right operand: an absolute right
operand replaces the left path entirely; otherwise its components are
appended. -/
def pyPathDiv (root : PyPath) (rel : String) : PyPath :=
  let r := parsePosix rel
  if r.absolute then r else { root with parts := root.parts ++ r.parts }

/-- `VIDEO_PATH_MARKER` (hdf5_adapter.py line 14). -/
def VIDEO_PATH_MARKER : String := "videos/"

/-- Index of the first (leftmost) occurrence of `m` as a contiguous sublist
of `l`, if any: the model of Python substring search underlying
`m in s` and `s.split(m, 1)`. -/
def findSub (m : List Char) : List Char → Option Nat
  | [] => if m.isEmpty then some 0 else none
  | c :: rest =>
    if m.isPrefixOf (c :: rest) then some 0
    else (findSub m rest).map (· + 1)

/-- `m` occurs in `l` starting at index `i`. -/
def occursAt (m l : List Char) (i : Nat) : Bool :=
  m.isPrefixOf (l.drop i)

/-- `resolve_video_path(video_root, raw_video_path)` (hdf5_adapter.py lines
42-47): if the raw path contains `VIDEO_PATH_MARKER`, keep only the suffix
after the first occurrence (`rel.split(VIDEO_PATH_MARKER, 1)[1]`), then
join to the root with the `pathlib` `/` operator. -/
def resolve_video_path (video_root : PyPath) (raw_video_path : String) : PyPath :=
  let rel :=
    match findSub VIDEO_PATH_MARKER.data raw_video_path.data with
    | some i => String.mk (raw_video_path.data.drop (i + VIDEO_PATH_MARKER.length))
    | none => raw_video_path
  pyPathDiv video_root rel

/-- Python `str.isdigit` restricted to ASCII text: non-empty and every
character a decimal digit. -/
def pyIsdigit (s : String) : Bool :=
  !s.data.isEmpty && s.data.all Char.isDigit

/-- Python `int(s)` on a decimal-numeral string. -/
def pyIntOfDigits (s : String) : Nat :=
  s.data.foldl (fun n c => 10 * n + (c.toNat - 48)) 0

/-- `_sort_key(key)` (hdf5_adapter.py lines 141-145): the integer value for
decimal-numeral keys, otherwise `abs(hash(str(key)))` for the process's
string hash `hash`. -/
def sort_key (hash : String → Int) (key : String) : Int :=
  if pyIsdigit key then (pyIntOfDigits key : Int) else |hash key|

/-- The key-comparison relation `sorted(..., key=_sort_key)` sorts by. -/
def sortKeyLe (hash : String → Int) (a b : String) : Prop :=
  sort_key hash a ≤ sort_key hash b

instance (hash : String → Int) : DecidableRel (sortKeyLe hash) := fun a b =>
  inferInstanceAs (Decidable (sort_key hash a ≤ sort_key hash b))

/-- Python `sorted(keys, key=_sort_key)`: a stable sort by `sortKeyLe`,
modelled by Mathlib's stable `insertionSort` (extensionally equal to
CPython's stable sort for the same total preorder). -/
def pySortedKeys (hash : String → Int) (keys : List String) : List String :=
  List.insertionSort (sortKeyLe hash) keys

/-- Python exceptions the adapter can raise, as error values. -/
inductive PyError where
  | unsupportedSchema
  | zeroEpisodes
  | missingPaths (key : String) (missing : List String)
  | typeError
  | indexError
  | unicodeDecodeError
  | keyError
deriving DecidableEq, Repr

/-- `get_episode_group(dataset)` (hdf5_adapter.py lines 50-54): the
top-level `episodes` group, or `ValueError` for an unsupported schema. -/
def get_episode_group (episodes : Option α) : Except PyError α :=
  match episodes with
  | some g => .ok g
  | none => .error .unsupportedSchema

/-- One conformant episode group as the typed readers consume it: the two
action/observation arrays, pose array, the two one-dimensional metadata
arrays, the two scalar string payloads, and the three numeric video
scalars. -/
structure EpisodeGroup where
  delta_eef : NpArray
  proprio : NpArray
  eef_pose : NpArray
  frame_index : List PyNum
  timestamps : List PyNum
  task_text : H5Scalar
  video_path : H5Scalar
  from_timestamp : Rat
  to_timestamp : Rat
  fps : Rat
deriving DecidableEq, Repr

/-- `EpisodeView` (hdf5_adapter.py lines 17-29): resolved view of one
episode in the canonical HDF5. -/
structure EpisodeView where
  episode_key : String
  demo_id : Int
  num_steps : Nat
  task_text : String
  video_path_hdf5 : String
  video_path_resolved : PyPath
  from_timestamp : Rat
  to_timestamp : Rat
  fps : Rat
deriving DecidableEq, Repr

/-- An opened HDF5 file as the typed readers see it: the `episodes` group
(when present) is an association list from episode key to episode group. -/
structure Dataset where
  episodes : Option (List (String × EpisodeGroup))
deriving DecidableEq, Repr

/-- The body of the loop of `iter_episode_views` (hdf5_adapter.py lines
90-109): build one `EpisodeView` from one episode group, in the source's
evaluation order (string decoding first, `action.shape[0]` at the yield). -/
def buildView (hash : String → Int) (video_root : PyPath) (episode_key : String)
    (episode : EpisodeGroup) : Except PyError EpisodeView := do
  let task_text ← match decode_scalar_string episode.task_text with
    | some s => Except.ok s
    | none => Except.error PyError.unicodeDecodeError
  let raw_video ← match decode_scalar_string episode.video_path with
    | some s => Except.ok s
    | none => Except.error PyError.unicodeDecodeError
  let demo_id : Int :=
    if pyIsdigit episode_key then (pyIntOfDigits episode_key : Int)
    else sort_key hash episode_key
  let num_steps ← match episode.delta_eef.shape.head? with
    | some n => Except.ok n
    | none => Except.error PyError.indexError
  return { episode_key := episode_key
           demo_id := demo_id
           num_steps := num_steps
           task_text := task_text
           video_path_hdf5 := raw_video
           video_path_resolved := resolve_video_path video_root raw_video
           from_timestamp := episode.from_timestamp
           to_timestamp := episode.to_timestamp
           fps := episode.fps }

/-- `iter_episode_views(dataset, video_root)` (hdf5_adapter.py lines
86-109): yield episode views for the keys of the `episodes` group in
`sorted(..., key=_sort_key)` order. The model collects the whole finite
yield sequence; a raise anywhere is the error of the run. -/
def iter_episode_views (hash : String → Int) (d : Dataset) (video_root : PyPath) :
    Except PyError (List EpisodeView) := do
  let episodes ← get_episode_group d.episodes
  (pySortedKeys hash (episodes.map Prod.fst)).mapM fun episode_key =>
    match List.lookup episode_key episodes with
    | some episode => buildView hash video_root episode_key episode
    | none => Except.error PyError.keyError

/-- `validate_episode_arrays(episode)` (hdf5_adapter.py lines 112-138):
accumulate data-quality issue tags in source order. `len()` of a
zero-dimensional array raises `TypeError` (lines 121-122) before any tag is
produced. -/
def validate_episode_arrays (episode : EpisodeGroup) : Except PyError (List String) := do
  let length ← match episode.delta_eef.lenOrErr with
    | some n => Except.ok n
    | none => Except.error PyError.typeError
  let proprioLen ← match episode.proprio.lenOrErr with
    | some n => Except.ok n
    | none => Except.error PyError.typeError
  let eefPoseLen ← match episode.eef_pose.lenOrErr with
    | some n => Except.ok n
    | none => Except.error PyError.typeError
  let frameLen := episode.frame_index.length
  let tsLen := episode.timestamps.length
  let issues : List String := []
  let issues := if proprioLen = eefPoseLen ∧ eefPoseLen = frameLen ∧ frameLen = tsLen ∧ tsLen = length
    then issues else issues ++ ["length_mismatch"]
  let issues := if episode.delta_eef.isfiniteAll then issues else issues ++ ["delta_eef_non_finite"]
  let issues := if episode.proprio.isfiniteAll then issues else issues ++ ["proprio_non_finite"]
  let issues := if episode.eef_pose.isfiniteAll then issues else issues ++ ["eef_pose_non_finite"]
  let issues := if npAllDiffGe0 episode.frame_index then issues else issues ++ ["frame_index_not_monotonic"]
  let issues := if npAllDiffGe0 episode.timestamps then issues else issues ++ ["timestamps_not_monotonic"]
  let issues := if episode.delta_eef.ndim = 2 ∧ episode.delta_eef.shape.getD 1 0 = 6
    then issues else issues ++ ["delta_eef_shape_not_Tx6"]
  return issues

/-- An episode group as the structural check sees it: the set of paths
(`"action/delta_eef"` etc.) that resolve inside the group. -/
structure RawEpisode where
  paths : List String
deriving DecidableEq, Repr

/-- An opened HDF5 file as the structural check sees it. -/
structure H5Struct where
  episodes : Option (List (String × RawEpisode))
deriving DecidableEq, Repr

/-- `required_episode_paths()` (hdf5_adapter.py lines 57-70). -/
def required_episode_paths : List String :=
  [ "action/delta_eef"
  , "obs/proprio"
  , "obs/eef_pose"
  , "meta/frame_index"
  , "meta/timestamps"
  , "meta/task_text"
  , "meta/video/path"
  , "meta/video/from_timestamp"
  , "meta/video/to_timestamp"
  , "meta/video/fps" ]

/-- `assert_required_structure(dataset)` (hdf5_adapter.py lines 73-83):
`ValueError` when the `episodes` group is absent or empty; otherwise check
the ten required paths against the first episode in sorted-key order and
report every missing one. -/
def assert_required_structure (hash : String → Int) (d : H5Struct) : Except PyError Unit := do
  let episodes ← get_episode_group d.episodes
  if episodes.length = 0 then
    Except.error PyError.zeroEpisodes
  else
    match (pySortedKeys hash (episodes.map Prod.fst)).head? with
    | none => Except.error PyError.indexError
    | some first_key =>
      match List.lookup first_key episodes with
      | none => Except.error PyError.keyError
      | some first_episode =>
        let missing := required_episode_paths.filter fun p => decide (p ∉ first_episode.paths)
        if missing.isEmpty then Except.ok () else Except.error (PyError.missingPaths first_key missing)

/-- Python `f"\x7bn:04d\x7d"`: sign, then the decimal digits zero-padded to
a total width of four characters. -/
def pyFormat04d (n : Int) : String :=
  if n < 0 then
    let s := (-n).toNat.repr
    "-" ++ String.mk (List.replicate (3 - s.length) '0') ++ s
  else
    let s := n.toNat.repr
    String.mk (List.replicate (4 - s.length) '0') ++ s

/-- The export file name `f"demo_\x7bview.demo_id:04d\x7d_\x7bcamera_key\x7d.mp4"`
built by `02_export_mp4_from_hdf5.py` line 111 (same `demo_` plus
zero-padded id scheme as `00a_validate_transfer.py` line 107). -/
def export_output_name (demo_id : Int) (camera_key : String) : String :=
  "demo_" ++ pyFormat04d demo_id ++ "_" ++ camera_key ++ ".mp4"

/-! ### Helper lemmas -/

theorem except_ok_bind {ε α β : Type} (a : α) (f : α → Except ε β) :
    (Except.ok a >>= f : Except ε β) = f a := rfl

theorem except_error_bind {ε α β : Type} (e : ε) (f : α → Except ε β) :
    (Except.error e >>= f : Except ε β) = Except.error e := rfl

theorem PyNum.isFinite_eq_false_iff (x : PyNum) :
    x.isFinite = false ↔ (x = PyNum.nan ∨ x = PyNum.pinf ∨ x = PyNum.ninf) := by
  cases x <;> simp [PyNum.isFinite]

theorem lookup_of_mem_keys {β : Type} {l : List (String × β)} {k : String}
    (h : k ∈ l.map Prod.fst) : ∃ ep, List.lookup k l = some ep ∧ (k, ep) ∈ l := by
  induction l with
  | nil => simp at h
  | cons p t ih =>
    rcases p with ⟨a, b⟩
    by_cases hk : k = a
    · subst hk
      exact ⟨b, by simp [List.lookup], by simp⟩
    · have h' : k ∈ t.map Prod.fst := by simpa [hk] using h
      rcases ih h' with ⟨ep, h1, h2⟩
      have hb : (k == a) = false := beq_eq_false_iff_ne.mpr hk
      exact ⟨ep, by simp [List.lookup, hb, h1], by simp [h2]⟩

instance sortKeyLeTotal (hash : String → Int) : IsTotal String (sortKeyLe hash) :=
  ⟨fun a b => le_total (sort_key hash a) (sort_key hash b)⟩

instance sortKeyLeTrans (hash : String → Int) : IsTrans String (sortKeyLe hash) :=
  ⟨fun _ _ _ h1 h2 => le_trans h1 h2⟩

theorem pySortedKeys_sorted (hash : String → Int) (keys : List String) :
    (pySortedKeys hash keys).Sorted (sortKeyLe hash) :=
  List.sorted_insertionSort _ keys

theorem pySortedKeys_perm (hash : String → Int) (keys : List String) :
    (pySortedKeys hash keys).Perm keys :=
  List.perm_insertionSort _ keys

theorem buildView_ok {hash : String → Int} {root : PyPath} {k : String} {ep : EpisodeGroup}
    {v : EpisodeView} (h : buildView hash root k ep = .ok v) :
    v.episode_key = k ∧
    v.demo_id = (if pyIsdigit k then (pyIntOfDigits k : Int) else sort_key hash k) ∧
    (∃ rv, decode_scalar_string ep.video_path = some rv ∧
      v.video_path_hdf5 = rv ∧ v.video_path_resolved = resolve_video_path root rv) := by
  unfold buildView at h
  cases h1 : decode_scalar_string ep.task_text with
  | none => rw [h1] at h; simp [except_error_bind] at h
  | some t =>
    rw [h1] at h
    cases h2 : decode_scalar_string ep.video_path with
    | none => rw [h2] at h; simp only [except_ok_bind, except_error_bind] at h; exact Except.noConfusion h
    | some rv =>
      rw [h2] at h
      cases h3 : ep.delta_eef.shape.head? with
      | none => rw [h3] at h; simp only [except_ok_bind, except_error_bind] at h; exact Except.noConfusion h
      | some n =>
        rw [h3] at h
        simp only [except_ok_bind] at h
        cases h
        exact ⟨rfl, rfl, rv, rfl, rfl, rfl⟩

theorem mapM_ok_mem {α β ε : Type} (f : α → Except ε β) :
    ∀ (ks : List α) (vs : List β), ks.mapM f = .ok vs → ∀ v ∈ vs, ∃ k ∈ ks, f k = .ok v := by
  intro ks
  induction ks with
  | nil =>
    intro vs h v hv
    rw [List.mapM_nil] at h
    cases h
    simp at hv
  | cons k t ih =>
    intro vs h v hv
    rw [List.mapM_cons] at h
    cases hf : f k with
    | error e => rw [hf] at h; simp [except_error_bind] at h
    | ok v1 =>
      rw [hf] at h
      rw [except_ok_bind] at h
      cases ht : t.mapM f with
      | error e => rw [ht] at h; simp [except_error_bind] at h
      | ok vs1 =>
        rw [ht, except_ok_bind] at h
        cases h
        rcases List.mem_cons.mp hv with hv1 | hv2
        · exact ⟨k, by simp, hv1 ▸ hf⟩
        · rcases ih vs1 ht v hv2 with ⟨k', hk', hfk'⟩
          exact ⟨k', by simp [hk'], hfk'⟩

theorem mapM_iter_ok (hash : String → Int) (root : PyPath) (l : List (String × EpisodeGroup))
    (hb : ∀ p ∈ l, ∃ v, buildView hash root p.1 p.2 = .ok v) :
    ∀ ks : List String, (∀ k ∈ ks, k ∈ l.map Prod.fst) →
      ∃ vs : List EpisodeView,
        (ks.mapM fun episode_key =>
          match List.lookup episode_key l with
          | some episode => buildView hash root episode_key episode
          | none => Except.error PyError.keyError) = .ok vs ∧
        vs.map EpisodeView.episode_key = ks := by
  intro ks
  induction ks with
  | nil => exact fun _ => ⟨[], by rw [List.mapM_nil]; rfl, rfl⟩
  | cons k t ih =>
    intro hks
    obtain ⟨ep, hlk, hmem⟩ := lookup_of_mem_keys (hks k (by simp))
    obtain ⟨v, hv⟩ := hb (k, ep) hmem
    obtain ⟨vs, hvs, hmap⟩ := ih fun k' hk' => hks k' (by simp [hk'])
    refine ⟨v :: vs, ?_, ?_⟩
    · rw [List.mapM_cons]
      simp only [hlk, hv, hvs, except_ok_bind]
      rfl
    · simp [hmap, (buildView_ok hv).1]

theorem ite_append_single {α : Type} (c : Prop) [Decidable c] (l : List α) (t : α) :
    (if c then l else l ++ [t]) = l ++ (if c then [] else [t]) := by
  split_ifs <;> simp

theorem validate_eq (ep : EpisodeGroup) {n pn en : Nat}
    (h1 : ep.delta_eef.lenOrErr = some n) (h2 : ep.proprio.lenOrErr = some pn)
    (h3 : ep.eef_pose.lenOrErr = some en) :
    validate_episode_arrays ep = .ok (
      (if pn = en ∧ en = ep.frame_index.length ∧ ep.frame_index.length = ep.timestamps.length ∧
          ep.timestamps.length = n then [] else ["length_mismatch"]) ++
      (if ep.delta_eef.isfiniteAll then [] else ["delta_eef_non_finite"]) ++
      (if ep.proprio.isfiniteAll then [] else ["proprio_non_finite"]) ++
      (if ep.eef_pose.isfiniteAll then [] else ["eef_pose_non_finite"]) ++
      (if npAllDiffGe0 ep.frame_index then [] else ["frame_index_not_monotonic"]) ++
      (if npAllDiffGe0 ep.timestamps then [] else ["timestamps_not_monotonic"]) ++
      (if ep.delta_eef.ndim = 2 ∧ ep.delta_eef.shape.getD 1 0 = 6 then []
        else ["delta_eef_shape_not_Tx6"])) := by
  unfold validate_episode_arrays
  rw [h1, h2, h3]
  simp only [except_ok_bind, ite_append_single]
  simp only [List.append_assoc, List.nil_append]
  rfl

theorem validate_ok_lens {ep : EpisodeGroup} {issues : List String}
    (h : validate_episode_arrays ep = .ok issues) :
    ∃ n pn en, ep.delta_eef.lenOrErr = some n ∧ ep.proprio.lenOrErr = some pn ∧
      ep.eef_pose.lenOrErr = some en := by
  unfold validate_episode_arrays at h
  cases h1 : ep.delta_eef.lenOrErr with
  | none => rw [h1] at h; exact Except.noConfusion h
  | some n =>
    rw [h1] at h
    cases h2 : ep.proprio.lenOrErr with
    | none => rw [h2] at h; exact Except.noConfusion h
    | some pn =>
      rw [h2] at h
      cases h3 : ep.eef_pose.lenOrErr with
      | none => rw [h3] at h; exact Except.noConfusion h
      | some en => exact ⟨n, pn, en, rfl, rfl, rfl⟩

theorem occursAt_nil (m : List Char) (j : Nat) : occursAt m [] j = m.isEmpty := by
  cases m <;> simp [occursAt, List.isPrefixOf]

theorem findSub_eq_some : ∀ {l : List Char} {i : Nat} {m : List Char},
    occursAt m l i = true → (∀ j < i, occursAt m l j = false) → findSub m l = some i := by
  intro l
  induction l with
  | nil =>
    intro i m h1 h2
    have hi : i = 0 := by
      by_contra hne
      have h0 := h2 0 (Nat.pos_of_ne_zero hne)
      rw [occursAt_nil] at h0 h1
      rw [h1] at h0
      exact Bool.noConfusion h0
    subst hi
    rw [occursAt_nil] at h1
    simp [findSub, h1]
  | cons c rest ih =>
    intro i m h1 h2
    by_cases hp : m.isPrefixOf (c :: rest) = true
    · have hi : i = 0 := by
        by_contra hne
        have h0 := h2 0 (Nat.pos_of_ne_zero hne)
        simp only [occursAt, List.drop_zero] at h0
        rw [hp] at h0
        exact Bool.noConfusion h0
      subst hi
      simp [findSub, hp]
    · cases i with
      | zero =>
        simp only [occursAt, List.drop_zero] at h1
        exact absurd h1 hp
      | succ i' =>
        have h1' : occursAt m rest i' = true := h1
        have h2' : ∀ j < i', occursAt m rest j = false := fun j hj => h2 (j + 1) (by omega)
        rw [findSub]
        simp [hp, ih h1' h2']

theorem findSub_eq_none {m : List Char} (hm : m ≠ []) :
    ∀ {l : List Char}, (∀ j < l.length, occursAt m l j = false) → findSub m l = none := by
  intro l
  induction l with
  | nil =>
    intro _
    cases m with
    | nil => exact absurd rfl hm
    | cons a t => simp [findSub]
  | cons c rest ih =>
    intro h
    have h0 := h 0 (by simp)
    have hp : m.isPrefixOf (c :: rest) = false := by
      simpa only [occursAt, List.drop_zero] using h0
    rw [findSub]
    simp [hp, ih fun j hj => h (j + 1) (by simpa using Nat.succ_lt_succ hj)]

theorem allDiffGe0_eq_not_strictDec : ∀ {xs : List PyNum},
    (∀ x ∈ xs, x.isFinite = true) → npAllDiffGe0 xs = !strictDecSomewhere xs := by
  intro xs
  induction xs with
  | nil => intro _; rfl
  | cons x t ih =>
    intro h
    cases t with
    | nil => rfl
    | cons y t2 =>
      have hx := h x (by simp)
      have hy := h y (by simp)
      have ht : ∀ z ∈ y :: t2, z.isFinite = true := fun z hz => h z (List.mem_cons_of_mem x hz)
      show (PyNum.le (.fin 0) (PyNum.sub y x) && npAllDiffGe0 (y :: t2)) =
        !(PyNum.lt y x || strictDecSomewhere (y :: t2))
      cases x with
      | nan => simp [PyNum.isFinite] at hx
      | pinf => simp [PyNum.isFinite] at hx
      | ninf => simp [PyNum.isFinite] at hx
      | fin a =>
        cases y with
        | nan => simp [PyNum.isFinite] at hy
        | pinf => simp [PyNum.isFinite] at hy
        | ninf => simp [PyNum.isFinite] at hy
        | fin b =>
          have hstep : PyNum.le (.fin 0) (PyNum.sub (.fin b) (.fin a)) =
              !(PyNum.lt (.fin b) (.fin a)) := by
            show decide (0 ≤ b - a) = !decide (b < a)
            rw [← decide_not]
            exact decide_eq_decide.mpr (sub_nonneg.trans not_lt.symm)
          rw [hstep, ih ht, Bool.not_or]

theorem decodeOne_encode (v : Nat) (hval : v < 0xd800 ∨ (0xdfff < v ∧ v < 0x110000))
    (rest : List Nat) : decodeOne (utf8EncodeCp v ++ rest) = some (v, rest) := by
  by_cases h1 : v < 0x80
  · have henc : utf8EncodeCp v = [v] := by unfold utf8EncodeCp; rw [if_pos h1]
    rw [henc]
    simp only [List.cons_append, List.nil_append]
    unfold decodeOne
    dsimp only
    rw [if_pos h1]
  · by_cases h2 : v < 0x800
    · have henc : utf8EncodeCp v = [0xC0 + v / 0x40, 0x80 + v % 0x40] := by
        unfold utf8EncodeCp; rw [if_neg h1, if_pos h2]
      rw [henc]
      simp only [List.cons_append, List.nil_append]
      unfold decodeOne
      dsimp only
      have c1 : ¬ (0xC0 + v / 0x40 < 0x80) := by omega
      have c2 : 0xC0 + v / 0x40 < 0xE0 := by omega
      have c4 : (decide (0xC2 ≤ 0xC0 + v / 0x40) && isContByte (0x80 + v % 0x40)) = true := by
        simp only [isContByte, Bool.and_eq_true, decide_eq_true_eq]
        omega
      rw [if_neg c1, if_pos c2, if_pos c4]
      have hX : (0xC0 + v / 0x40 - 0xC0) * 0x40 + (0x80 + v % 0x40 - 0x80) = v := by omega
      rw [hX]
    · by_cases h3 : v < 0x10000
      · have henc : utf8EncodeCp v = [0xE0 + v / 0x1000, 0x80 + v / 0x40 % 0x40, 0x80 + v % 0x40] := by
          unfold utf8EncodeCp; rw [if_neg h1, if_neg h2, if_pos h3]
        rw [henc]
        simp only [List.cons_append, List.nil_append]
        unfold decodeOne
        dsimp only
        have c1 : ¬ (0xE0 + v / 0x1000 < 0x80) := by omega
        have c2 : ¬ (0xE0 + v / 0x1000 < 0xE0) := by omega
        have c3 : 0xE0 + v / 0x1000 < 0xF0 := by omega
        have hX : (0xE0 + v / 0x1000 - 0xE0) * 0x1000 + (0x80 + v / 0x40 % 0x40 - 0x80) * 0x40 +
            (0x80 + v % 0x40 - 0x80) = v := by omega
        rw [if_neg c1, if_neg c2, if_pos c3]
        rw [hX]
        have c4 : (isContByte (0x80 + v / 0x40 % 0x40) && isContByte (0x80 + v % 0x40) &&
            (decide (0x800 ≤ v) && (decide (v < 0xD800) || decide (0xE000 ≤ v)))) = true := by
          simp only [isContByte, Bool.and_eq_true, Bool.or_eq_true, decide_eq_true_eq]
          omega
        rw [if_pos c4]
      · have henc : utf8EncodeCp v = [0xF0 + v / 0x40000, 0x80 + v / 0x1000 % 0x40,
            0x80 + v / 0x40 % 0x40, 0x80 + v % 0x40] := by
          unfold utf8EncodeCp; rw [if_neg h1, if_neg h2, if_neg h3]
        rw [henc]
        simp only [List.cons_append, List.nil_append]
        unfold decodeOne
        dsimp only
        have c1 : ¬ (0xF0 + v / 0x40000 < 0x80) := by omega
        have c2 : ¬ (0xF0 + v / 0x40000 < 0xE0) := by omega
        have c3 : ¬ (0xF0 + v / 0x40000 < 0xF0) := by omega
        have c5 : 0xF0 + v / 0x40000 < 0xF5 := by omega
        have hX : (0xF0 + v / 0x40000 - 0xF0) * 0x40000 + (0x80 + v / 0x1000 % 0x40 - 0x80) * 0x1000 +
            (0x80 + v / 0x40 % 0x40 - 0x80) * 0x40 + (0x80 + v % 0x40 - 0x80) = v := by omega
        rw [if_neg c1, if_neg c2, if_neg c3, if_pos c5]
        rw [hX]
        have c4 : (isContByte (0x80 + v / 0x1000 % 0x40) && isContByte (0x80 + v / 0x40 % 0x40) &&
            isContByte (0x80 + v % 0x40) && (decide (0x10000 ≤ v) && decide (v < 0x110000))) = true := by
          simp only [isContByte, Bool.and_eq_true, decide_eq_true_eq]
          omega
        rw [if_pos c4]

theorem utf8DecodeList_nil_eq : utf8DecodeList [] = some [] := by
  rw [utf8DecodeList]

theorem utf8DecodeList_encode_append (v : Nat)
    (hval : v < 0xd800 ∨ (0xdfff < v ∧ v < 0x110000)) (rest : List Nat) :
    utf8DecodeList (utf8EncodeCp v ++ rest) = (utf8DecodeList rest).map (v :: ·) := by
  have hd := decodeOne_encode v hval rest
  cases hl : utf8EncodeCp v ++ rest with
  | nil =>
    rw [hl] at hd
    exact Option.noConfusion hd
  | cons b r =>
    rw [hl] at hd
    rw [utf8DecodeList]
    split
    · next vr heq =>
        rw [hd] at heq
        cases heq
        rfl
    · next heq =>
        rw [hd] at heq
        exact Option.noConfusion heq

theorem utf8DecodeList_flatMap (cs : List Char) :
    utf8DecodeList (cs.flatMap fun c => utf8EncodeCp c.toNat) = some (cs.map Char.toNat) := by
  induction cs with
  | nil => exact utf8DecodeList_nil_eq
  | cons c cs ih =>
    have hval : c.toNat < 0xd800 ∨ (0xdfff < c.toNat ∧ c.toNat < 0x110000) := by
      have h := c.valid
      unfold UInt32.isValidChar at h
      unfold Nat.isValidChar at h
      exact h
    rw [List.flatMap_cons, utf8DecodeList_encode_append _ hval, ih]
    rfl

theorem pyBytesDecode_encode (s : String) : pyBytesDecodeUtf8 (utf8EncodeStr s) = some s := by
  unfold pyBytesDecodeUtf8 utf8EncodeStr
  rw [utf8DecodeList_flatMap]
  simp only [Option.map_some']
  congr 1
  rw [List.map_map]
  have hco : (Char.ofNat ∘ Char.toNat) = id := funext Char.ofNat_toNat
  rw [hco, List.map_id]

/-! ### Claims -/

/-- C3: for every video root and raw video path, if the raw path contains
the substring `videos/` (first occurrence at index `i`), `resolve_video_path`
returns the root joined with exactly the suffix after that first occurrence,
even when the marker occurs more than once; if the raw path contains no
occurrence, the result is the root joined with the entire raw path
unchanged. -/
theorem C3_resolve_video_path_marker_split (root : PyPath) (raw : String) :
    (∀ i, occursAt VIDEO_PATH_MARKER.data raw.data i = true →
      (∀ j < i, occursAt VIDEO_PATH_MARKER.data raw.data j = false) →
      resolve_video_path root raw =
        pyPathDiv root (String.mk (raw.data.drop (i + VIDEO_PATH_MARKER.length)))) ∧
    ((∀ j < raw.data.length, occursAt VIDEO_PATH_MARKER.data raw.data j = false) →
      resolve_video_path root raw = pyPathDiv root raw) := by
  constructor
  · intro i h1 h2
    unfold resolve_video_path
    rw [findSub_eq_some h1 h2]
  · intro h
    unfold resolve_video_path
    rw [findSub_eq_none (by decide) h]

/-- Witness for C3 at a concrete two-marker path (first occurrence at index
6) and a concrete marker-free path. -/
theorem C3_witness :
    resolve_video_path ⟨false, ["root"]⟩ "clips/videos/a/videos/b.mp4" =
      pyPathDiv ⟨false, ["root"]⟩
        (String.mk ("clips/videos/a/videos/b.mp4".data.drop (6 + VIDEO_PATH_MARKER.length))) ∧
    resolve_video_path ⟨false, ["root"]⟩ "plain/clip.mp4" =
      pyPathDiv ⟨false, ["root"]⟩ "plain/clip.mp4" :=
  ⟨(C3_resolve_video_path_marker_split ⟨false, ["root"]⟩ "clips/videos/a/videos/b.mp4").1 6
      (by decide) (by decide),
    (C3_resolve_video_path_marker_split ⟨false, ["root"]⟩ "plain/clip.mp4").2 (by decide)⟩

/-- C10: if the raw video path is absolute (leading slash) and contains no
`videos/` marker, `resolve_video_path` returns the parsed raw path itself:
the `pathlib` join discards the caller-supplied video root entirely, so the
result is independent of the root. -/
theorem C10_absolute_path_discards_root (root root' : PyPath) (raw : String)
    (habs : raw.data.head? = some '/')
    (hno : ∀ j < raw.data.length, occursAt VIDEO_PATH_MARKER.data raw.data j = false) :
    resolve_video_path root raw = parsePosix raw ∧
    resolve_video_path root raw = resolve_video_path root' raw := by
  have key : ∀ rt : PyPath, resolve_video_path rt raw = parsePosix raw := by
    intro rt
    unfold resolve_video_path
    rw [findSub_eq_none (by decide) hno]
    unfold pyPathDiv
    rw [if_pos]
    show (parsePosix raw).absolute = true
    unfold parsePosix
    simp [habs]
  exact ⟨key root, (key root).trans (key root').symm⟩

/-- Witness for C10 at a concrete absolute, marker-free path and two
distinct roots. -/
theorem C10_witness :
    resolve_video_path ⟨false, ["rootA"]⟩ "/abs/clip.mp4" = parsePosix "/abs/clip.mp4" ∧
    resolve_video_path ⟨false, ["rootA"]⟩ "/abs/clip.mp4" =
      resolve_video_path ⟨true, ["rootB"]⟩ "/abs/clip.mp4" :=
  C10_absolute_path_discards_root ⟨false, ["rootA"]⟩ ⟨true, ["rootB"]⟩ "/abs/clip.mp4"
    (by decide) (by decide)

/-- C8: `decode_scalar_string` returns the plain text value for every scalar
string payload shape: raw bytes (including numpy fixed-size character
scalars, which subclass `bytes`) are UTF-8 decoded, and a zero-dimensional
array wrapping either a bytes or str payload is unwrapped and normalizes to
the same plain string content. -/
theorem C8_decode_scalar_string_payload_shapes (s : String) :
    decode_scalar_string (.pyBytes (utf8EncodeStr s)) = some s ∧
    decode_scalar_string (.arr0 (.pyBytes (utf8EncodeStr s))) = some s ∧
    decode_scalar_string (.arr0 (.pyStr s)) = some s ∧
    decode_scalar_string (.pyStr s) = some s := by
  refine ⟨pyBytesDecode_encode s, ?_, rfl, rfl⟩
  show pyBytesDecodeUtf8 (utf8EncodeStr s) = some s
  exact pyBytesDecode_encode s

/-- Witness for C8 at a concrete task string. -/
theorem C8_witness :
    decode_scalar_string (.pyBytes (utf8EncodeStr "pick the red cube")) =
      some "pick the red cube" :=
  (C8_decode_scalar_string_payload_shapes "pick the red cube").1

/-- Concrete conformant episode used by witnesses (three steps, 6-column
action array, in-order metadata). -/
def epW0 : EpisodeGroup :=
  { delta_eef := ⟨[3, 6], [.fin 1]⟩
  , proprio := ⟨[3, 3], []⟩
  , eef_pose := ⟨[3, 7], []⟩
  , frame_index := [.fin 0]
  , timestamps := [.fin 0]
  , task_text := .pyStr "t0"
  , video_path := .pyStr "videos/cam/0.mp4"
  , from_timestamp := 0
  , to_timestamp := 1
  , fps := 30 }

/-- Second concrete conformant episode used by witnesses. -/
def epW1 : EpisodeGroup :=
  { epW0 with task_text := .pyStr "t1", video_path := .pyStr "videos/cam/1.mp4" }

/-- Concrete two-episode dataset (keys deliberately out of order). -/
def dW : Dataset := ⟨some [("1", epW1), ("0", epW0)]⟩

/-- Concrete video root used by witnesses. -/
def rootW : PyPath := ⟨false, ["vr"]⟩

/-- C1: for every dataset with a valid episodes container and at least one
(conformant, i.e. view-buildable) episode, `iter_episode_views` yields a
finite list of views whose key sequence is exactly the stable sort of the
episode keys under the `_sort_key` rule (decimal-numeral keys as their
integer value, other keys as the absolute value of the process hash), hence
sorted under that rule and a permutation of the dataset's keys; and a
re-run over the same dataset handle returns the identical list (the model
is a pure function of the handle, so re-iteration is order-stable). -/
theorem C1_iter_episode_views_sorted_deterministic
    (hash : String → Int) (d : Dataset) (root : PyPath) (l : List (String × EpisodeGroup))
    (hep : d.episodes = some l) (hne : l ≠ [])
    (hb : ∀ p ∈ l, ∃ v, buildView hash root p.1 p.2 = .ok v) :
    ∃ views : List EpisodeView,
      iter_episode_views hash d root = .ok views ∧
      views ≠ [] ∧
      views.map EpisodeView.episode_key = pySortedKeys hash (l.map Prod.fst) ∧
      (views.map EpisodeView.episode_key).Sorted (sortKeyLe hash) ∧
      (views.map EpisodeView.episode_key).Perm (l.map Prod.fst) ∧
      ∀ views2, iter_episode_views hash d root = .ok views2 → views2 = views := by
  obtain ⟨vs, hvs, hmap⟩ := mapM_iter_ok hash root l hb (pySortedKeys hash (l.map Prod.fst))
    fun k hk => (pySortedKeys_perm hash (l.map Prod.fst)).mem_iff.mp hk
  have hiter : iter_episode_views hash d root = .ok vs := by
    unfold iter_episode_views
    rw [hep]
    simp only [get_episode_group, except_ok_bind]
    exact hvs
  refine ⟨vs, hiter, ?_, hmap, ?_, ?_, ?_⟩
  · intro h0
    apply hne
    have hperm := pySortedKeys_perm hash (l.map Prod.fst)
    rw [← hmap, h0] at hperm
    exact List.map_eq_nil_iff.mp hperm.symm.eq_nil
  · rw [hmap]
    exact pySortedKeys_sorted hash _
  · rw [hmap]
    exact pySortedKeys_perm hash _
  · intro views2 h2
    rw [hiter] at h2
    exact (Except.ok.inj h2).symm

/-- Witness for C1: the concrete two-episode dataset `dW` (keys listed out
of order) iterates in sorted key order `["0", "1"]`. -/
theorem C1_witness :
    ∃ views : List EpisodeView,
      iter_episode_views (fun _ => 0) dW rootW = .ok views ∧
      views ≠ [] ∧
      views.map EpisodeView.episode_key =
        pySortedKeys (fun _ => 0) ([("1", epW1), ("0", epW0)].map Prod.fst) ∧
      (views.map EpisodeView.episode_key).Sorted (sortKeyLe fun _ => 0) ∧
      (views.map EpisodeView.episode_key).Perm ([("1", epW1), ("0", epW0)].map Prod.fst) ∧
      ∀ views2, iter_episode_views (fun _ => 0) dW rootW = .ok views2 → views2 = views :=
  C1_iter_episode_views_sorted_deterministic (fun _ => 0) dW rootW [("1", epW1), ("0", epW0)]
    rfl (by simp)
    (by
      intro p hp
      have hp2 : p = ("1", epW1) ∨ p = ("0", epW0) := by simpa using hp
      rcases hp2 with h | h <;> subst h <;> exact ⟨_, rfl⟩)

/-- C2: for every view yielded by `iter_episode_views`: if its episode key
is a string of decimal digits, `demo_id` equals the integer value of the
key; otherwise `demo_id` equals the absolute value of the process hash of
the key; and in every case `demo_id` is a non-negative integer. -/
theorem C2_demo_id_derivation (hash : String → Int) (d : Dataset) (root : PyPath)
    (views : List EpisodeView) (v : EpisodeView)
    (hiter : iter_episode_views hash d root = .ok views) (hv : v ∈ views) :
    (pyIsdigit v.episode_key = true → v.demo_id = (pyIntOfDigits v.episode_key : Int)) ∧
    (pyIsdigit v.episode_key = false → v.demo_id = |hash v.episode_key|) ∧
    0 ≤ v.demo_id := by
  unfold iter_episode_views at hiter
  cases hd : d.episodes with
  | none =>
    rw [hd] at hiter
    simp only [get_episode_group, except_error_bind] at hiter
    exact Except.noConfusion hiter
  | some l =>
    rw [hd] at hiter
    simp only [get_episode_group, except_ok_bind] at hiter
    obtain ⟨k, _, hfk⟩ := mapM_ok_mem _ _ _ hiter v hv
    cases hlk : List.lookup k l with
    | none => rw [hlk] at hfk; exact Except.noConfusion hfk
    | some ep =>
      rw [hlk] at hfk
      obtain ⟨hkey, hdemo, -⟩ := buildView_ok hfk
      subst hkey
      refine ⟨?_, ?_, ?_⟩
      · intro hdig
        rw [hdemo, if_pos hdig]
      · intro hndig
        rw [hdemo, if_neg (by simp [hndig])]
        unfold sort_key
        rw [if_neg (by simp [hndig])]
      · rw [hdemo]
        split_ifs
        · exact Int.natCast_nonneg _
        · unfold sort_key
          split_ifs
          exact abs_nonneg _

/-- The first view of the witness dataset `dW` as `iter_episode_views`
returns it. -/
def vW0 : EpisodeView :=
  { episode_key := "0"
  , demo_id := 0
  , num_steps := 3
  , task_text := "t0"
  , video_path_hdf5 := "videos/cam/0.mp4"
  , video_path_resolved := ⟨false, ["vr", "cam", "0.mp4"]⟩
  , from_timestamp := 0
  , to_timestamp := 1
  , fps := 30 }

/-- The second view of the witness dataset `dW`. -/
def vW1 : EpisodeView :=
  { vW0 with
      episode_key := "1"
      demo_id := 1
      task_text := "t1"
      video_path_hdf5 := "videos/cam/1.mp4"
      video_path_resolved := ⟨false, ["vr", "cam", "1.mp4"]⟩ }

/-- Witness for C2 at the concrete dataset `dW` and its first yielded
view. -/
theorem C2_witness :
    (pyIsdigit vW0.episode_key = true → vW0.demo_id = (pyIntOfDigits vW0.episode_key : Int)) ∧
    (pyIsdigit vW0.episode_key = false → vW0.demo_id = |(fun _ => (0 : Int)) vW0.episode_key|) ∧
    0 ≤ vW0.demo_id :=
  C2_demo_id_derivation (fun _ => 0) dW rootW [vW0, vW1] vW0 rfl (by simp)

/-- C4: `assert_required_structure` errors when the dataset has no
episodes container or when the container is empty; otherwise it examines
only the first episode in sorted-key order, returns normally (pure, no
side effects) when all ten required paths are present there, and errors
naming exactly the required paths absent from that first episode. -/
theorem C4_assert_required_structure (hash : String → Int) (d : H5Struct) :
    (d.episodes = none → assert_required_structure hash d = .error .unsupportedSchema) ∧
    (d.episodes = some [] → assert_required_structure hash d = .error .zeroEpisodes) ∧
    (∀ l k ep, d.episodes = some l →
      (pySortedKeys hash (l.map Prod.fst)).head? = some k →
      List.lookup k l = some ep →
      ((∀ p ∈ required_episode_paths, p ∈ ep.paths) →
        assert_required_structure hash d = .ok ()) ∧
      (∀ p ∈ required_episode_paths, p ∉ ep.paths →
        ∃ missing, assert_required_structure hash d = .error (.missingPaths k missing) ∧
          p ∈ missing ∧ ∀ q, q ∈ missing ↔ (q ∈ required_episode_paths ∧ q ∉ ep.paths))) := by
  refine ⟨?_, ?_, ?_⟩
  · intro h
    unfold assert_required_structure
    rw [h]
    simp [get_episode_group, except_error_bind]
  · intro h
    unfold assert_required_structure
    rw [h]
    simp [get_episode_group, except_ok_bind]
  · intro l k ep hep hhead hlk
    have hlen : ¬ (l.length = 0) := by
      intro h0
      rw [List.length_eq_zero.mp h0] at hhead
      simp [pySortedKeys, List.insertionSort] at hhead
    unfold assert_required_structure
    rw [hep]
    simp only [get_episode_group, except_ok_bind]
    rw [if_neg hlen, hhead]
    dsimp only
    rw [hlk]
    dsimp only
    constructor
    · intro hall
      have hfil : required_episode_paths.filter (fun p => decide (p ∉ ep.paths)) = [] := by
        rw [List.filter_eq_nil_iff]
        intro a ha
        simp [hall a ha]
      rw [hfil]
      rfl
    · intro p hp hnp
      have hpfil : p ∈ required_episode_paths.filter (fun q => decide (q ∉ ep.paths)) := by
        simp [List.mem_filter, hp, hnp]
      have hfne : (required_episode_paths.filter fun q => decide (q ∉ ep.paths)).isEmpty = false := by
        cases hc : required_episode_paths.filter fun q => decide (q ∉ ep.paths) with
        | nil => rw [hc] at hpfil; simp at hpfil
        | cons a t => rfl
      rw [hfne]
      refine ⟨_, ?_, hpfil, ?_⟩
      · rfl
      · intro q
        simp [List.mem_filter]

/-- Structural witness episode with all ten required paths. -/
def repGood : RawEpisode := ⟨required_episode_paths⟩

/-- Structural witness episode missing eight of the ten required paths. -/
def repBad : RawEpisode := ⟨["action/delta_eef", "obs/proprio"]⟩

/-- Structural dataset whose sorted-first episode is the conformant one. -/
def dS : H5Struct := ⟨some [("1", repBad), ("0", repGood)]⟩

/-- Structural dataset whose only episode is missing paths. -/
def dSbad : H5Struct := ⟨some [("0", repBad)]⟩

/-- Witness for C4: the no-container, zero-episode, all-present and
missing-path cases at concrete datasets. -/
theorem C4_witness :
    assert_required_structure (fun _ => 0) ⟨none⟩ = .error .unsupportedSchema ∧
    assert_required_structure (fun _ => 0) ⟨some []⟩ = .error .zeroEpisodes ∧
    assert_required_structure (fun _ => 0) dS = .ok () ∧
    ∃ missing, assert_required_structure (fun _ => 0) dSbad = .error (.missingPaths "0" missing) ∧
      "obs/eef_pose" ∈ missing ∧
      ∀ q, q ∈ missing ↔ (q ∈ required_episode_paths ∧ q ∉ repBad.paths) :=
  ⟨(C4_assert_required_structure (fun _ => 0) ⟨none⟩).1 rfl,
   (C4_assert_required_structure (fun _ => 0) ⟨some []⟩).2.1 rfl,
   ((C4_assert_required_structure (fun _ => 0) dS).2.2
      [("1", repBad), ("0", repGood)] "0" repGood rfl (by decide) (by decide)).1
      (by decide),
   ((C4_assert_required_structure (fun _ => 0) dSbad).2.2
      [("0", repBad)] "0" repBad rfl (by decide) (by decide)).2
      "obs/eef_pose" (by decide) (by decide)⟩

theorem mem_ite_nil_single {α : Type} (c : Prop) [Decidable c] (x t : α) :
    x ∈ (if c then ([] : List α) else [t]) ↔ (¬c ∧ x = t) := by
  split_ifs with h <;> simp [h]

theorem isfiniteAll_false_iff (a : NpArray) :
    (¬ a.isfiniteAll = true) ↔
      ∃ x ∈ a.data, x = PyNum.nan ∨ x = PyNum.pinf ∨ x = PyNum.ninf := by
  unfold NpArray.isfiniteAll
  rw [List.all_eq_true]
  push_neg
  constructor
  · rintro ⟨x, hx, hnf⟩
    exact ⟨x, hx, (PyNum.isFinite_eq_false_iff x).mp (by simpa using hnf)⟩
  · rintro ⟨x, hx, hshape⟩
    exact ⟨x, hx, by simp [(PyNum.isFinite_eq_false_iff x).mpr hshape]⟩

/-- Fully conformant concrete episode: all checks pass. -/
def epOK : EpisodeGroup :=
  { delta_eef := ⟨[3, 6], [.fin 1, .fin 2]⟩
  , proprio := ⟨[3, 3], [.fin 0]⟩
  , eef_pose := ⟨[3, 7], [.fin 0]⟩
  , frame_index := [.fin 0, .fin 0, .fin 1]
  , timestamps := [.fin 0, .fin 1, .fin 2]
  , task_text := .pyStr "t"
  , video_path := .pyStr "v"
  , from_timestamp := 0
  , to_timestamp := 1
  , fps := 30 }

/-- Concrete episode whose only departure from `epOK` is a zero-dimensional
action array (a structurally present scalar dataset where a `(steps, 6)`
array is expected). -/
def ep0dim : EpisodeGroup := { epOK with delta_eef := ⟨[], [.fin 1]⟩ }

/-- C5 counterexample: on an episode whose action array is zero-dimensional
(a shape defect that the issue taxonomy itself classifies as the
data-quality tag `delta_eef_shape_not_Tx6`, and which structural validation
does not catch since the path is present), `validate_episode_arrays` raises
`TypeError` at `len(delta_eef)` instead of returning an issue list. -/
theorem C5_counterexample_zero_dim_raises :
    validate_episode_arrays ep0dim = .error PyError.typeError := rfl

/-- C5 (amended): provided every array is at least one-dimensional — numpy
`len()` raises `TypeError` on a zero-dimensional array, see the
counterexample — `validate_episode_arrays` never raises and returns an
ordered issue list; `length_mismatch` is present iff the proprio, eef-pose,
frame-index and timestamp arrays do not all share the action array's
length; and an episode passing every check yields the empty list. -/
theorem C5_validate_length_mismatch_amended (ep : EpisodeGroup) (n pn en : Nat)
    (h1 : ep.delta_eef.lenOrErr = some n) (h2 : ep.proprio.lenOrErr = some pn)
    (h3 : ep.eef_pose.lenOrErr = some en) :
    ∃ issues : List String,
      validate_episode_arrays ep = .ok issues ∧
      (("length_mismatch" ∈ issues) ↔
        ¬(pn = n ∧ en = n ∧ ep.frame_index.length = n ∧ ep.timestamps.length = n)) ∧
      ((pn = n ∧ en = n ∧ ep.frame_index.length = n ∧ ep.timestamps.length = n) →
        ep.delta_eef.isfiniteAll = true → ep.proprio.isfiniteAll = true →
        ep.eef_pose.isfiniteAll = true → npAllDiffGe0 ep.frame_index = true →
        npAllDiffGe0 ep.timestamps = true → ep.delta_eef.ndim = 2 →
        ep.delta_eef.shape.getD 1 0 = 6 → issues = []) := by
  have hchain : (pn = en ∧ en = ep.frame_index.length ∧
      ep.frame_index.length = ep.timestamps.length ∧ ep.timestamps.length = n) ↔
      (pn = n ∧ en = n ∧ ep.frame_index.length = n ∧ ep.timestamps.length = n) := by
    omega
  refine ⟨_, validate_eq ep h1 h2 h3, ?_, ?_⟩
  · simp only [List.mem_append, mem_ite_nil_single]
    simp only [String.reduceEq, and_false, or_false, and_true]
    exact not_congr hchain
  · intro hlen hf1 hf2 hf3 hm1 hm2 hs1 hs2
    simp [hchain.mpr hlen, hf1, hf2, hf3, hm1, hm2, hs1, hs2]
    simpa [List.getD] using hs2

/-- Concrete episode with a length mismatch (proprio claims two steps, the
action array three). -/
def epLenBad : EpisodeGroup := { epOK with proprio := ⟨[2, 3], [.fin 0]⟩ }

/-- Witness for C5 (amended) at the conformant episode `epOK` (empty issue
list) and the mismatched episode `epLenBad`. -/
theorem C5_witness :
    (∃ issues : List String,
      validate_episode_arrays epOK = .ok issues ∧
      (("length_mismatch" ∈ issues) ↔
        ¬(3 = 3 ∧ 3 = 3 ∧ epOK.frame_index.length = 3 ∧ epOK.timestamps.length = 3)) ∧
      ((3 = 3 ∧ 3 = 3 ∧ epOK.frame_index.length = 3 ∧ epOK.timestamps.length = 3) →
        epOK.delta_eef.isfiniteAll = true → epOK.proprio.isfiniteAll = true →
        epOK.eef_pose.isfiniteAll = true → npAllDiffGe0 epOK.frame_index = true →
        npAllDiffGe0 epOK.timestamps = true → epOK.delta_eef.ndim = 2 →
        epOK.delta_eef.shape.getD 1 0 = 6 → issues = [])) ∧
    (∃ issues : List String,
      validate_episode_arrays epLenBad = .ok issues ∧
      (("length_mismatch" ∈ issues) ↔
        ¬(2 = 3 ∧ 3 = 3 ∧ epLenBad.frame_index.length = 3 ∧ epLenBad.timestamps.length = 3)) ∧
      ((2 = 3 ∧ 3 = 3 ∧ epLenBad.frame_index.length = 3 ∧ epLenBad.timestamps.length = 3) →
        epLenBad.delta_eef.isfiniteAll = true → epLenBad.proprio.isfiniteAll = true →
        epLenBad.eef_pose.isfiniteAll = true → npAllDiffGe0 epLenBad.frame_index = true →
        npAllDiffGe0 epLenBad.timestamps = true → epLenBad.delta_eef.ndim = 2 →
        epLenBad.delta_eef.shape.getD 1 0 = 6 → issues = [])) :=
  ⟨C5_validate_length_mismatch_amended epOK 3 3 3 rfl rfl rfl,
   C5_validate_length_mismatch_amended epLenBad 3 2 3 rfl rfl rfl⟩

/-- Concrete episode whose only defect is one NaN in its pose array. -/
def epNanPose : EpisodeGroup := { epOK with eef_pose := ⟨[3, 7], [.fin 0, .nan]⟩ }

/-- C6: whenever `validate_episode_arrays` returns an issue list, each of
the tags `delta_eef_non_finite`, `proprio_non_finite`, `eef_pose_non_finite`
is present iff the corresponding array contains a NaN or infinite element;
in particular the episode whose only defect is a NaN in its pose array
reports exactly `["eef_pose_non_finite"]`. -/
theorem C6_non_finite_tags :
    (∀ (ep : EpisodeGroup) (issues : List String),
      validate_episode_arrays ep = .ok issues →
      (("delta_eef_non_finite" ∈ issues) ↔
        ∃ x ∈ ep.delta_eef.data, x = PyNum.nan ∨ x = PyNum.pinf ∨ x = PyNum.ninf) ∧
      (("proprio_non_finite" ∈ issues) ↔
        ∃ x ∈ ep.proprio.data, x = PyNum.nan ∨ x = PyNum.pinf ∨ x = PyNum.ninf) ∧
      (("eef_pose_non_finite" ∈ issues) ↔
        ∃ x ∈ ep.eef_pose.data, x = PyNum.nan ∨ x = PyNum.pinf ∨ x = PyNum.ninf)) ∧
    validate_episode_arrays epNanPose = .ok ["eef_pose_non_finite"] := by
  constructor
  · intro ep issues h
    obtain ⟨n, pn, en, h1, h2, h3⟩ := validate_ok_lens h
    rw [validate_eq ep h1 h2 h3] at h
    have hiss := Except.ok.inj h
    subst hiss
    refine ⟨?_, ?_, ?_⟩
    · simp only [List.mem_append, mem_ite_nil_single]
      simp only [String.reduceEq, and_false, or_false, false_or, and_true]
      exact isfiniteAll_false_iff _
    · simp only [List.mem_append, mem_ite_nil_single]
      simp only [String.reduceEq, and_false, or_false, false_or, and_true]
      exact isfiniteAll_false_iff _
    · simp only [List.mem_append, mem_ite_nil_single]
      simp only [String.reduceEq, and_false, or_false, false_or, and_true]
      exact isfiniteAll_false_iff _
  · rw [validate_eq epNanPose rfl rfl rfl]
    norm_num [epNanPose, epOK, NpArray.isfiniteAll, PyNum.isFinite, NpArray.ndim,
      npAllDiffGe0, npDiff, PyNum.le, PyNum.sub]

/-- Witness for C6: the general tag characterization applied at the
NaN-pose episode, whose issue list is exactly `["eef_pose_non_finite"]`. -/
theorem C6_witness :
    (("delta_eef_non_finite" ∈ ["eef_pose_non_finite"]) ↔
      ∃ x ∈ epNanPose.delta_eef.data, x = PyNum.nan ∨ x = PyNum.pinf ∨ x = PyNum.ninf) ∧
    (("proprio_non_finite" ∈ ["eef_pose_non_finite"]) ↔
      ∃ x ∈ epNanPose.proprio.data, x = PyNum.nan ∨ x = PyNum.pinf ∨ x = PyNum.ninf) ∧
    (("eef_pose_non_finite" ∈ ["eef_pose_non_finite"]) ↔
      ∃ x ∈ epNanPose.eef_pose.data, x = PyNum.nan ∨ x = PyNum.pinf ∨ x = PyNum.ninf) :=
  C6_non_finite_tags.1 epNanPose ["eef_pose_non_finite"] C6_non_finite_tags.2

/-- Concrete episode whose frame-index array is `[0, NaN]` and whose other
arrays are conformant (two steps each). -/
def epFrNan : EpisodeGroup :=
  { delta_eef := ⟨[2, 6], [.fin 1]⟩
  , proprio := ⟨[2, 3], [.fin 0]⟩
  , eef_pose := ⟨[2, 7], [.fin 0]⟩
  , frame_index := [.fin 0, .nan]
  , timestamps := [.fin 0, .fin 1]
  , task_text := .pyStr "t"
  , video_path := .pyStr "v"
  , from_timestamp := 0
  , to_timestamp := 1
  , fps := 30 }

/-- C7 counterexample: frame indices `[0, NaN]` contain no consecutive pair
that strictly decreases under IEEE comparison (every comparison with NaN is
false), yet the code flags `frame_index_not_monotonic` because the diff
`NaN - 0` fails `>= 0`; so tag-present is not equivalent to
some-pair-strictly-decreases. -/
theorem C7_counterexample_nan_no_strict_decrease :
    validate_episode_arrays epFrNan = .ok ["frame_index_not_monotonic"] ∧
    strictDecSomewhere epFrNan.frame_index = false := by
  constructor
  · rw [validate_eq epFrNan rfl rfl rfl]
    norm_num [epFrNan, NpArray.isfiniteAll, PyNum.isFinite, NpArray.ndim,
      npAllDiffGe0, npDiff, PyNum.le, PyNum.sub]
  · rfl

/-- Concrete episode with frame indices `[0, 0, 1, 2, 2, 3]` (plateaus,
no decrease) and six conformant steps. -/
def epPlateau : EpisodeGroup :=
  { delta_eef := ⟨[6, 6], [.fin 1]⟩
  , proprio := ⟨[6, 3], [.fin 0]⟩
  , eef_pose := ⟨[6, 7], [.fin 0]⟩
  , frame_index := [.fin 0, .fin 0, .fin 1, .fin 2, .fin 2, .fin 3]
  , timestamps := [.fin 0, .fin 1, .fin 2, .fin 3, .fin 4, .fin 5]
  , task_text := .pyStr "t"
  , video_path := .pyStr "v"
  , from_timestamp := 0
  , to_timestamp := 1
  , fps := 30 }

/-- Concrete episode with frame indices `[0, 2, 1]` and three conformant
steps. -/
def ep021 : EpisodeGroup :=
  { epOK with frame_index := [.fin 0, .fin 2, .fin 1] }

/-- C7 (amended): whenever `validate_episode_arrays` returns an issue list,
and the respective array is all-finite (the counterexample shows NaN
entries can produce the tag with no strict decrease),
`frame_index_not_monotonic` (resp. `timestamps_not_monotonic`) is present
iff some consecutive pair strictly decreases; plateaus yield no issue:
frame indices `[0, 0, 1, 2, 2, 3]` give the empty issue list and
`[0, 2, 1]` gives exactly the frame-index tag. -/
theorem C7_monotonic_tags_amended :
    (∀ (ep : EpisodeGroup) (issues : List String),
      validate_episode_arrays ep = .ok issues →
      ((∀ x ∈ ep.frame_index, x.isFinite = true) →
        (("frame_index_not_monotonic" ∈ issues) ↔
          strictDecSomewhere ep.frame_index = true)) ∧
      ((∀ x ∈ ep.timestamps, x.isFinite = true) →
        (("timestamps_not_monotonic" ∈ issues) ↔
          strictDecSomewhere ep.timestamps = true))) ∧
    validate_episode_arrays epPlateau = .ok [] ∧
    validate_episode_arrays ep021 = .ok ["frame_index_not_monotonic"] := by
  refine ⟨?_, ?_, ?_⟩
  · intro ep issues h
    obtain ⟨n, pn, en, h1, h2, h3⟩ := validate_ok_lens h
    rw [validate_eq ep h1 h2 h3] at h
    have hiss := Except.ok.inj h
    subst hiss
    constructor
    · intro hfin
      simp only [List.mem_append, mem_ite_nil_single]
      simp only [String.reduceEq, and_false, or_false, false_or, and_true]
      rw [allDiffGe0_eq_not_strictDec hfin]
      simp
    · intro hfin
      simp only [List.mem_append, mem_ite_nil_single]
      simp only [String.reduceEq, and_false, or_false, false_or, and_true]
      rw [allDiffGe0_eq_not_strictDec hfin]
      simp
  · rw [validate_eq epPlateau rfl rfl rfl]
    norm_num [epPlateau, NpArray.isfiniteAll, PyNum.isFinite, NpArray.ndim,
      npAllDiffGe0, npDiff, PyNum.le, PyNum.sub]
  · rw [validate_eq ep021 rfl rfl rfl]
    norm_num [ep021, epOK, NpArray.isfiniteAll, PyNum.isFinite, NpArray.ndim,
      npAllDiffGe0, npDiff, PyNum.le, PyNum.sub]

/-- Witness for C7 (amended): the finite-array characterization applied at
the `[0, 2, 1]` episode, whose issue list is exactly the frame-index tag. -/
theorem C7_witness :
    ((∀ x ∈ ep021.frame_index, x.isFinite = true) →
      (("frame_index_not_monotonic" ∈ ["frame_index_not_monotonic"]) ↔
        strictDecSomewhere ep021.frame_index = true)) ∧
    ((∀ x ∈ ep021.timestamps, x.isFinite = true) →
      (("timestamps_not_monotonic" ∈ ["frame_index_not_monotonic"]) ↔
        strictDecSomewhere ep021.timestamps = true)) :=
  C7_monotonic_tags_amended.1 ep021 ["frame_index_not_monotonic"]
    C7_monotonic_tags_amended.2.2

/-- The view built from `epW0` under episode key `"7"`. -/
def v7 : EpisodeView :=
  { episode_key := "7"
  , demo_id := 7
  , num_steps := 3
  , task_text := "t0"
  , video_path_hdf5 := "videos/cam/0.mp4"
  , video_path_resolved := ⟨false, ["vr", "cam", "0.mp4"]⟩
  , from_timestamp := 0
  , to_timestamp := 1
  , fps := 30 }

/-- The view built from `epW0` under episode key `"007"`. -/
def v007 : EpisodeView := { v7 with episode_key := "007" }

/-- C9: the demo-id derivation and the sort key are not injective on
episode keys: the distinct decimal keys `"7"` and `"007"` receive the same
sort key and the same `demo_id` whatever the process hash, so the stable
sort leaves their relative order to the container's enumeration order (both
presentation orders are fixed points of the sort), and the downstream
export file names built from `demo_id` collide. -/
theorem C9_demo_id_sort_key_not_injective (hash : String → Int) :
    ("7" : String) ≠ "007" ∧
    sort_key hash "7" = sort_key hash "007" ∧
    (∃ v1 v2 : EpisodeView,
      buildView hash rootW "7" epW0 = .ok v1 ∧
      buildView hash rootW "007" epW0 = .ok v2 ∧
      v1 ≠ v2 ∧
      v1.demo_id = v2.demo_id ∧
      export_output_name v1.demo_id "front" = export_output_name v2.demo_id "front") ∧
    pySortedKeys hash ["7", "007"] = ["7", "007"] ∧
    pySortedKeys hash ["007", "7"] = ["007", "7"] := by
  refine ⟨by decide, ?_, ⟨v7, v007, rfl, rfl, by decide, rfl, rfl⟩, rfl, rfl⟩
  unfold sort_key
  rw [if_pos (by decide : pyIsdigit "7" = true), if_pos (by decide : pyIsdigit "007" = true)]
  rfl

/-- Witness for C9 at the concrete constant-zero hash. -/
theorem C9_witness :
    ("7" : String) ≠ "007" ∧
    sort_key (fun _ => 0) "7" = sort_key (fun _ => 0) "007" ∧
    (∃ v1 v2 : EpisodeView,
      buildView (fun _ => 0) rootW "7" epW0 = .ok v1 ∧
      buildView (fun _ => 0) rootW "007" epW0 = .ok v2 ∧
      v1 ≠ v2 ∧
      v1.demo_id = v2.demo_id ∧
      export_output_name v1.demo_id "front" = export_output_name v2.demo_id "front") ∧
    pySortedKeys (fun _ => 0) ["7", "007"] = ["7", "007"] ∧
    pySortedKeys (fun _ => 0) ["007", "7"] = ["007", "7"] :=
  C9_demo_id_sort_key_not_injective (fun _ => 0)
